import Mathlib

/-!
Verification of the image-transformation request protocol of the
`05_my_thumbor` crate: the `ImageSpec` pipeline data model, its builders
(`src/pb/mod.rs`), the protobuf wire codec and the URL-safe base64 token
codec used by `From<&ImageSpec> for String` and `TryFrom<&str> for ImageSpec`.

The prost-generated message types (`abi.rs`) are not present in the sources;
their shape is modelled from the spec (§3 data model, §6 wire format) and
from how `src/pb/mod.rs` uses them.  The protobuf varint/tagged-field wire
format and the URL-safe no-pad base64 alphabet are embedded directly, as the
`prost` and `base64` crates implement them.
-/

namespace Thumbor

/-- Modelled from the spec: wire enum `resize::ResizeType` of the missing
generated `abi.rs`, with `Normal = 0` and `SeamCarve = 1`. -/
inductive resize.ResizeType
  | normal
  | seamCarve
deriving DecidableEq, Repr

/-- Modelled from the spec: wire enum `resize::SampleFilter` of the missing
generated `abi.rs`, members `Undefined = 0`, `Nearest`, `Triangle`,
`CatmullRom`, `Gaussian`, `Lanczos3`. -/
inductive resize.SampleFilter
  | undefined
  | nearest
  | triangle
  | catmullRom
  | gaussian
  | lanczos3
deriving DecidableEq, Repr

/-- Modelled from the spec: wire enum `filter::Filter` of the missing
generated `abi.rs`, members `Unspecified = 0`, `Oceanic`, `Islands`,
`Marine`. -/
inductive filter.Filter
  | unspecified
  | oceanic
  | islands
  | marine
deriving DecidableEq, Repr

/-- Protobuf enum number of a `resize::ResizeType` member. -/
def resize.ResizeType.toNat : resize.ResizeType → Nat
  | .normal => 0
  | .seamCarve => 1

/-- Protobuf enum number of a `resize::SampleFilter` member. -/
def resize.SampleFilter.toNat : resize.SampleFilter → Nat
  | .undefined => 0
  | .nearest => 1
  | .triangle => 2
  | .catmullRom => 3
  | .gaussian => 4
  | .lanczos3 => 5

/-- Protobuf enum number of a `filter::Filter` member. -/
def filter.Filter.toNat : filter.Filter → Nat
  | .unspecified => 0
  | .oceanic => 1
  | .islands => 2
  | .marine => 3

/-- Decoding of a wire number into `resize::ResizeType`; unknown numbers fall
back to the default (0) member, per the spec's sentinel-default rule. -/
def resize.ResizeType.ofWire (n : Nat) : resize.ResizeType :=
  if n = 1 then .seamCarve else .normal

/-- Decoding of a wire number into `resize::SampleFilter`; unknown numbers
fall back to the `Undefined` sentinel. -/
def resize.SampleFilter.ofWire : Nat → resize.SampleFilter
  | 1 => .nearest
  | 2 => .triangle
  | 3 => .catmullRom
  | 4 => .gaussian
  | 5 => .lanczos3
  | _ => .undefined

/-- Decoding of a wire number into `filter::Filter`; unknown numbers fall
back to the `Unspecified` sentinel. -/
def filter.Filter.ofWire : Nat → filter.Filter
  | 1 => .oceanic
  | 2 => .islands
  | 3 => .marine
  | _ => .unspecified

/-- Modelled from the spec: message `Resize` of the missing generated
`abi.rs`: `width:uint32 = 1`, `height:uint32 = 2`, `rtype = 3`,
`filter = 4`.  The `uint32` fields are Nats constrained to `< 2^32` by the
well-formedness predicate where it matters. -/
structure Resize where
  width : Nat
  height : Nat
  rtype : resize.ResizeType
  filter : resize.SampleFilter
deriving DecidableEq, Repr

/-- Modelled from the spec: message `Filter` of the missing generated
`abi.rs`: a single enum field `filter = 1`. -/
structure Filter where
  filter : filter.Filter
deriving DecidableEq, Repr

/-- Modelled from the spec: the `oneof data` payload `spec::Data` of message
`Spec`: `resize = 1`, `filter = 2` (the spec lists exactly these two
operation kinds). -/
inductive spec.Data
  | resize (r : Resize)
  | filter (f : Filter)
deriving DecidableEq, Repr

/-- Modelled from the spec: message `Spec` of the missing generated `abi.rs`:
an optional `oneof` payload, absent when the record carried no recognized
operation kind. -/
structure Spec where
  data : Option spec.Data
deriving DecidableEq, Repr

/-- Modelled from the spec: message `ImageSpec` of the missing generated
`abi.rs`: `repeated Spec specs = 1`. -/
structure ImageSpec where
  specs : List Spec
deriving DecidableEq, Repr

/-- The `ImageSpec::new` constructor of `src/pb/mod.rs`: wraps the ordered
list with no additional validation. -/
def ImageSpec.new (specs : List Spec) : ImageSpec :=
  ⟨specs⟩

/-- The `Spec::new_resize_seam_carve` builder of `src/pb/mod.rs`. -/
def Spec.new_resize_seam_carve (width height : Nat) : Spec :=
  ⟨some (.resize ⟨width, height, .seamCarve, .undefined⟩)⟩

/-- The `Spec::new_resize` builder of `src/pb/mod.rs`. -/
def Spec.new_resize (width height : Nat) (filter : resize.SampleFilter) : Spec :=
  ⟨some (.resize ⟨width, height, .normal, filter⟩)⟩

/-- The `Spec::new_filter` builder of `src/pb/mod.rs`. -/
def Spec.new_filter (filter : filter.Filter) : Spec :=
  ⟨some (.filter ⟨filter⟩)⟩

/-- The sampling-filter enum of the external `photon_rs` imaging primitive
(`photon_rs::transform::SamplingFilter`). -/
inductive SamplingFilter
  | nearest
  | triangle
  | catmullRom
  | gaussian
  | lanczos3
deriving DecidableEq, Repr

/-- The `From<resize::SampleFilter> for SamplingFilter` mapping of
`src/pb/mod.rs` lines 44-55. -/
def resize.SampleFilter.toSamplingFilter : resize.SampleFilter → SamplingFilter
  | .undefined => SamplingFilter.nearest
  | .nearest => SamplingFilter.nearest
  | .triangle => SamplingFilter.triangle
  | .catmullRom => SamplingFilter.catmullRom
  | .gaussian => SamplingFilter.gaussian
  | .lanczos3 => SamplingFilter.lanczos3

/-- The `filter::Filter::to_str` mapping of `src/pb/mod.rs` lines 32-41. -/
def filter.Filter.to_str : filter.Filter → Option String
  | .unspecified => none
  | .oceanic => some "oceanic"
  | .islands => some "islands"
  | .marine => some "marine"

/-! ### Protobuf varint layer (as implemented by the `prost` crate) -/

/-- Fuel-driven worker for LEB128 varint encoding; the fuel only bounds the
recursion depth and never runs out when it exceeds the encoded value. -/
def varintEncodeAux (fuel n : Nat) : List Nat :=
  match fuel with
  | 0 => []
  | fuel + 1 => if n < 128 then [n] else (n % 128 + 128) :: varintEncodeAux fuel (n / 128)

/-- LEB128 base-128 varint encoding of a natural number, least significant
group first, continuation bit `0x80` on every byte but the last. -/
def varintEncode (n : Nat) : List Nat :=
  varintEncodeAux (n + 1) n

theorem varintEncodeAux_congr : ∀ fuel1 fuel2 n, n < fuel1 → n < fuel2 →
    varintEncodeAux fuel1 n = varintEncodeAux fuel2 n
  | 0, _, n, h1, _ => absurd h1 (Nat.not_lt_zero n)
  | _ + 1, 0, n, _, h2 => absurd h2 (Nat.not_lt_zero n)
  | f1 + 1, f2 + 1, n, h1, h2 => by
    simp only [varintEncodeAux]
    by_cases h : n < 128
    · simp [h]
    · simp only [if_neg h]
      rw [varintEncodeAux_congr f1 f2 (n / 128) (by omega) (by omega)]

/-- Unfolding equation showing `varintEncode` computes the usual LEB128
recursion. -/
theorem varintEncode_eq (n : Nat) :
    varintEncode n = if n < 128 then [n] else (n % 128 + 128) :: varintEncode (n / 128) := by
  by_cases h : n < 128
  · simp [varintEncode, varintEncodeAux, h]
  · have e1 : varintEncode n = (n % 128 + 128) :: varintEncodeAux n (n / 128) := by
      simp [varintEncode, varintEncodeAux, h]
    rw [if_neg h, e1, varintEncodeAux_congr n (n / 128 + 1) (n / 128) (by omega) (by omega)]
    rfl

/-- Varint decoding: returns the decoded value and the remaining bytes, or
`none` on an empty or truncated buffer. -/
def varintDecode : List Nat → Option (Nat × List Nat)
  | [] => none
  | b :: rest =>
    if b < 128 then some (b, rest)
    else
      match varintDecode rest with
      | some (n, rest2) => some (b % 128 + 128 * n, rest2)
      | none => none

theorem varintEncode_ne_nil (n : Nat) : varintEncode n ≠ [] := by
  rw [varintEncode_eq]
  split <;> simp

theorem varintEncode_bytes_lt (n : Nat) : ∀ b ∈ varintEncode n, b < 256 := by
  induction n using Nat.strong_induction_on with
  | _ n ih =>
    intro b hb
    rw [varintEncode_eq] at hb
    by_cases h : n < 128
    · simp [h] at hb; omega
    · simp only [if_neg h, List.mem_cons] at hb
      rcases hb with hb | hb
      · omega
      · exact ih (n / 128) (by omega) b hb

theorem varintDecode_append (n : Nat) (rest : List Nat) :
    varintDecode (varintEncode n ++ rest) = some (n, rest) := by
  induction n using Nat.strong_induction_on with
  | _ n ih =>
    rw [varintEncode_eq]
    by_cases h : n < 128
    · simp [h, varintDecode]
    · simp only [if_neg h, List.cons_append, varintDecode]
      have h1 : ¬ (n % 128 + 128 < 128) := by omega
      simp only [if_neg h1, ih (n / 128) (by omega)]
      have h2 : (n % 128 + 128) % 128 + 128 * (n / 128) = n := by
        have := Nat.div_add_mod n 128
        omega
      rw [h2]

theorem varintDecode_length {l rest : List Nat} {n : Nat}
    (h : varintDecode l = some (n, rest)) : rest.length < l.length := by
  induction l generalizing n rest with
  | nil => simp [varintDecode] at h
  | cons b tl ih =>
    simp only [varintDecode] at h
    split at h
    · simp only [Option.some.injEq, Prod.mk.injEq] at h
      simp [← h.2]
    · split at h
      · next m rest2 heq =>
        simp only [Option.some.injEq, Prod.mk.injEq] at h
        have := ih heq
        simp only [← h.2] at this ⊢
        simp only [List.length_cons]
        omega
      · exact absurd h (by simp)

/-! ### Protobuf tagged-field layer -/

/-- A decoded wire field value: varint, length-delimited payload, or one of
the fixed-width wire types (whose payloads no known field here uses). -/
inductive FieldValue
  | varint (n : Nat)
  | lenDelim (payload : List Nat)
  | fixed64
  | fixed32
deriving DecidableEq, Repr

/-- Parsing of a single `key ++ value` wire field from the front of a buffer:
the key varint packs `fieldNumber * 8 + wireType`; field number 0 and wire
types other than 0/1/2/5 are malformed, as in `prost`. -/
def parseOneField (l : List Nat) : Option ((Nat × FieldValue) × List Nat) :=
  match varintDecode l with
  | none => none
  | some (k, rest) =>
    if k / 8 = 0 then none
    else
      match k % 8 with
      | 0 =>
        match varintDecode rest with
        | none => none
        | some (v, rest2) => some ((k / 8, .varint v), rest2)
      | 1 => if 8 ≤ rest.length then some ((k / 8, .fixed64), rest.drop 8) else none
      | 2 =>
        match varintDecode rest with
        | none => none
        | some (len, rest2) =>
          if len ≤ rest2.length then
            some ((k / 8, .lenDelim (rest2.take len)), rest2.drop len)
          else none
      | 5 => if 4 ≤ rest.length then some ((k / 8, .fixed32), rest.drop 4) else none
      | _ => none

theorem parseOneField_length {l rest : List Nat} {f : Nat × FieldValue}
    (h : parseOneField l = some (f, rest)) : rest.length < l.length := by
  unfold parseOneField at h
  split at h
  · exact absurd h (by simp)
  · next k rest1 hdec =>
    have h1 := varintDecode_length hdec
    split at h
    · exact absurd h (by simp)
    · split at h
      · split at h
        · exact absurd h (by simp)
        · next v rest2 hdec2 =>
          have h2 := varintDecode_length hdec2
          simp only [Option.some.injEq, Prod.mk.injEq] at h
          obtain ⟨-, h4⟩ := h
          subst h4
          omega
      · split at h
        · simp only [Option.some.injEq, Prod.mk.injEq] at h
          obtain ⟨-, h4⟩ := h
          subst h4
          simp only [List.length_drop]
          omega
        · exact absurd h (by simp)
      · split at h
        · exact absurd h (by simp)
        · next len rest2 hdec2 =>
          have h2 := varintDecode_length hdec2
          split at h
          · simp only [Option.some.injEq, Prod.mk.injEq] at h
            obtain ⟨-, h4⟩ := h
            subst h4
            simp only [List.length_drop]
            omega
          · exact absurd h (by simp)
      · split at h
        · simp only [Option.some.injEq, Prod.mk.injEq] at h
          obtain ⟨-, h4⟩ := h
          subst h4
          simp only [List.length_drop]
          omega
        · exact absurd h (by simp)
      · exact absurd h (by simp)

/-- Fuel-driven worker for the wire-field loop; a buffer of length `n` holds
at most `n` fields, so fuel past the length never runs out. -/
def parseFieldsAux (fuel : Nat) (l : List Nat) : Option (List (Nat × FieldValue)) :=
  match fuel with
  | 0 => none
  | fuel + 1 =>
    match parseOneField l with
    | none => if l.isEmpty then some [] else none
    | some (f, rest) =>
      match parseFieldsAux fuel rest with
      | none => none
      | some fs => some (f :: fs)

/-- Parsing of a whole buffer into its sequence of wire fields. -/
def parseFields (l : List Nat) : Option (List (Nat × FieldValue)) :=
  parseFieldsAux (l.length + 1) l

theorem parseFieldsAux_congr : ∀ fuel1 fuel2 (l : List Nat), l.length < fuel1 →
    l.length < fuel2 → parseFieldsAux fuel1 l = parseFieldsAux fuel2 l
  | 0, _, l, h1, _ => absurd h1 (Nat.not_lt_zero _)
  | _ + 1, 0, l, _, h2 => absurd h2 (Nat.not_lt_zero _)
  | f1 + 1, f2 + 1, l, h1, h2 => by
    rcases hp : parseOneField l with _ | ⟨f, rest⟩
    · simp only [parseFieldsAux, hp]
    · have hr := parseOneField_length hp
      simp only [parseFieldsAux, hp]
      rw [parseFieldsAux_congr f1 f2 rest (by omega) (by omega)]

theorem parseFieldsAux_cons {l rest : List Nat} {f : Nat × FieldValue} {fuel : Nat}
    (h : parseOneField l = some (f, rest)) :
    parseFieldsAux (fuel + 1) l = (parseFieldsAux fuel rest).map (f :: ·) := by
  simp only [parseFieldsAux, h]
  cases parseFieldsAux fuel rest <;> rfl

theorem parseFields_nil : parseFields [] = some [] :=
  rfl

theorem parseFields_cons {l : List Nat} {f : Nat × FieldValue} {rest : List Nat}
    (h : parseOneField l = some (f, rest)) :
    parseFields l = (parseFields rest).map (f :: ·) := by
  have hr := parseOneField_length h
  unfold parseFields
  rw [parseFieldsAux_cons h,
    parseFieldsAux_congr l.length (rest.length + 1) rest (by omega) (by omega)]

/-! ### Message encoding (prost `encode_to_vec` semantics, proto3) -/

/-- Encoding of a singular varint-typed field: omitted when the value is the
proto3 default 0, else `key(field, wiretype 0) ++ varint(value)`. -/
def encodeVarintField (f v : Nat) : List Nat :=
  if v = 0 then [] else varintEncode (f * 8) ++ varintEncode v

/-- Encoding of a length-delimited field:
`key(field, wiretype 2) ++ varint(length) ++ payload`. -/
def encodeLenField (f : Nat) (payload : List Nat) : List Nat :=
  varintEncode (f * 8 + 2) ++ varintEncode payload.length ++ payload

/-- Wire bytes of a `Resize` message body. -/
def Resize.encodeBytes (r : Resize) : List Nat :=
  encodeVarintField 1 r.width ++ encodeVarintField 2 r.height ++
    encodeVarintField 3 r.rtype.toNat ++ encodeVarintField 4 r.filter.toNat

/-- Wire bytes of a `Filter` message body. -/
def Filter.encodeBytes (f : Filter) : List Nat :=
  encodeVarintField 1 f.filter.toNat

/-- Wire bytes of a `Spec` message body: the `oneof` member is always
emitted when present (even with an all-default payload), nothing is emitted
when the payload is absent. -/
def Spec.encodeBytes : Spec → List Nat
  | ⟨none⟩ => []
  | ⟨some (.resize r)⟩ => encodeLenField 1 r.encodeBytes
  | ⟨some (.filter f)⟩ => encodeLenField 2 f.encodeBytes

/-- Wire bytes of an `ImageSpec` message body: one length-delimited record
per element of `specs`, in order (prost `Message::encode_to_vec`). -/
def ImageSpec.encodeToVec (is : ImageSpec) : List Nat :=
  (is.specs.map fun sp => encodeLenField 1 sp.encodeBytes).flatten

/-! ### Message decoding (prost `Message::decode` semantics) -/

/-- Folding of parsed wire fields through a per-field update, failing when
any single field update fails (prost merge loop). -/
def applyFields (step : α → Nat × FieldValue → Option α) (a : α) :
    List (Nat × FieldValue) → Option α
  | [] => some a
  | f :: fs =>
    match step a f with
    | none => none
    | some a2 => applyFields step a2 fs

/-- Merging of one wire field into a `Resize` message under decode: known
fields demand wire type 0 (`uint32`/enum), a `uint32` value is truncated to
32 bits, an enum number falls back to its default member, and unknown
fields are skipped. -/
def Resize.applyField (r : Resize) (f : Nat × FieldValue) : Option Resize :=
  match f with
  | (1, .varint v) => some { r with width := v % 2 ^ 32 }
  | (2, .varint v) => some { r with height := v % 2 ^ 32 }
  | (3, .varint v) => some { r with rtype := resize.ResizeType.ofWire v }
  | (4, .varint v) => some { r with filter := resize.SampleFilter.ofWire v }
  | (n, _) => if n = 1 ∨ n = 2 ∨ n = 3 ∨ n = 4 then none else some r

/-- Default (all fields zero) `Resize`, the prost decode starting point. -/
def Resize.default : Resize :=
  ⟨0, 0, .normal, .undefined⟩

/-- Decoding of a `Resize` message body from wire bytes. -/
def Resize.decode (l : List Nat) : Option Resize :=
  match parseFields l with
  | none => none
  | some fs => applyFields Resize.applyField Resize.default fs

/-- Merging of one wire field into a `Filter` message under decode. -/
def Filter.applyField (f : Filter) (fv : Nat × FieldValue) : Option Filter :=
  match fv with
  | (1, .varint v) => some ⟨filter.Filter.ofWire v⟩
  | (n, _) => if n = 1 then none else some f

/-- Decoding of a `Filter` message body from wire bytes. -/
def Filter.decode (l : List Nat) : Option Filter :=
  match parseFields l with
  | none => none
  | some fs => applyFields Filter.applyField ⟨.unspecified⟩ fs

/-- Merging of one wire field into a `Spec` message under decode: `oneof`
members are length-delimited sub-messages, a record whose field number
matches no `oneof` member is skipped, leaving the payload absent. -/
def Spec.applyField (s : Spec) (fv : Nat × FieldValue) : Option Spec :=
  match fv with
  | (1, .lenDelim payload) => (Resize.decode payload).map fun r => ⟨some (.resize r)⟩
  | (2, .lenDelim payload) => (Filter.decode payload).map fun f => ⟨some (.filter f)⟩
  | (n, _) => if n = 1 ∨ n = 2 then none else some s

/-- Decoding of a `Spec` message body from wire bytes. -/
def Spec.decode (l : List Nat) : Option Spec :=
  match parseFields l with
  | none => none
  | some fs => applyFields Spec.applyField ⟨none⟩ fs

/-- Merging of one wire field into an `ImageSpec` under decode: each
`specs = 1` record decodes a `Spec` and appends it; unknown fields are
skipped. -/
def ImageSpec.applyField (is : ImageSpec) (fv : Nat × FieldValue) : Option ImageSpec :=
  match fv with
  | (1, .lenDelim payload) => (Spec.decode payload).map fun sp => ⟨is.specs ++ [sp]⟩
  | (n, _) => if n = 1 then none else some is

/-- Decoding of an `ImageSpec` from wire bytes (prost `ImageSpec::decode`). -/
def ImageSpec.decode (l : List Nat) : Option ImageSpec :=
  match parseFields l with
  | none => none
  | some fs => applyFields ImageSpec.applyField ⟨[]⟩ fs

/-! ### Parse lemmas for encoded fields -/

theorem parseOneField_varintField {f v : Nat} (hf : f ≠ 0) (hv : v ≠ 0)
    (rest : List Nat) :
    parseOneField (encodeVarintField f v ++ rest) = some ((f, .varint v), rest) := by
  unfold encodeVarintField parseOneField
  rw [if_neg hv, List.append_assoc]
  have h8 : f * 8 / 8 = f := by omega
  have hm : f * 8 % 8 = 0 := by omega
  simp [varintDecode_append, h8, hm, hf]

theorem parseOneField_lenField {f : Nat} (hf : f ≠ 0) (payload rest : List Nat) :
    parseOneField (encodeLenField f payload ++ rest) =
      some ((f, .lenDelim payload), rest) := by
  unfold encodeLenField parseOneField
  rw [List.append_assoc, List.append_assoc]
  have h8 : (f * 8 + 2) / 8 = f := by omega
  have hm : (f * 8 + 2) % 8 = 2 := by omega
  have hlen : payload.length ≤ (payload ++ rest).length := by
    simp
  simp [varintDecode_append, h8, hm, hf, hlen, List.take_left, List.drop_left]

theorem parseFields_varintField {f v : Nat} (hf : f ≠ 0) (rest : List Nat) :
    parseFields (encodeVarintField f v ++ rest) =
      if v = 0 then parseFields rest
      else (parseFields rest).map ((f, .varint v) :: ·) := by
  by_cases hv : v = 0
  · simp [encodeVarintField, hv]
  · rw [if_neg hv]
    exact parseFields_cons (parseOneField_varintField hf hv rest)

theorem parseFields_lenField {f : Nat} (hf : f ≠ 0) (payload rest : List Nat) :
    parseFields (encodeLenField f payload ++ rest) =
      (parseFields rest).map ((f, .lenDelim payload) :: ·) :=
  parseFields_cons (parseOneField_lenField hf payload rest)

/-! ### Round trip: wire encoding then decoding -/

/-- Field-list fragment contributed by a singular varint field. -/
def optV (f v : Nat) : List (Nat × FieldValue) :=
  if v = 0 then [] else [(f, .varint v)]

theorem parseFields_optV {f : Nat} (hf : f ≠ 0) (v : Nat) (rest : List Nat) :
    parseFields (encodeVarintField f v ++ rest) =
      (parseFields rest).map (optV f v ++ ·) := by
  by_cases hv : v = 0
  · simp only [encodeVarintField, optV, if_pos hv, List.nil_append]
    cases parseFields rest <;> simp
  · rw [optV, if_neg hv, parseFields_cons (parseOneField_varintField hf hv rest)]
    rfl

theorem parseFields_encodeResize (r : Resize) (rest : List Nat) :
    parseFields (r.encodeBytes ++ rest) =
      (parseFields rest).map
        (fun fs => optV 1 r.width ++ (optV 2 r.height ++ (optV 3 r.rtype.toNat ++
          (optV 4 r.filter.toNat ++ fs)))) := by
  obtain ⟨w, h, t, fl⟩ := r
  simp only [Resize.encodeBytes, List.append_assoc]
  rw [parseFields_optV one_ne_zero, parseFields_optV two_ne_zero,
    parseFields_optV three_ne_zero, parseFields_optV four_ne_zero]
  cases parseFields rest <;> rfl

theorem parseFields_encodeFilter (f : Filter) (rest : List Nat) :
    parseFields (f.encodeBytes ++ rest) =
      (parseFields rest).map (fun fs => optV 1 f.filter.toNat ++ fs) := by
  simp only [Filter.encodeBytes]
  rw [parseFields_optV one_ne_zero]

theorem applyFields_append (step : α → Nat × FieldValue → Option α) (a : α)
    (xs ys : List (Nat × FieldValue)) :
    applyFields step a (xs ++ ys) =
      match applyFields step a xs with
      | none => none
      | some a2 => applyFields step a2 ys := by
  induction xs generalizing a with
  | nil => rfl
  | cons x xs ih =>
    simp only [List.cons_append, applyFields]
    cases step a x <;> simp [ih]

theorem resizeDecode_encodeBytes (r : Resize) (hw : r.width < 2 ^ 32)
    (hh : r.height < 2 ^ 32) :
    Resize.decode r.encodeBytes = some r := by
  unfold Resize.decode
  have hp := parseFields_encodeResize r []
  rw [List.append_nil] at hp
  rw [hp, parseFields_nil]
  simp only [Option.map_some']
  obtain ⟨w, h, t, fl⟩ := r
  simp only at hw hh ⊢
  have hwm : w % 2 ^ 32 = w := Nat.mod_eq_of_lt hw
  have hhm : h % 2 ^ 32 = h := Nat.mod_eq_of_lt hh
  by_cases hw0 : w = 0 <;> by_cases hh0 : h = 0 <;> cases t <;> cases fl <;>
    simp_all [optV, applyFields, Resize.applyField, Resize.default,
      resize.ResizeType.toNat, resize.SampleFilter.toNat,
      resize.ResizeType.ofWire, resize.SampleFilter.ofWire]

theorem filterDecode_encodeBytes (f : Filter) :
    Filter.decode f.encodeBytes = some f := by
  unfold Filter.decode
  have hp := parseFields_encodeFilter f []
  rw [List.append_nil] at hp
  rw [hp, parseFields_nil]
  simp only [Option.map_some', List.append_nil]
  obtain ⟨fl⟩ := f
  cases fl <;>
    simp [optV, applyFields, Filter.applyField, filter.Filter.toNat, filter.Filter.ofWire]

theorem specDecode_encodeBytes (sp : Spec)
    (hwf : ∀ r, sp.data = some (.resize r) → r.width < 2 ^ 32 ∧ r.height < 2 ^ 32) :
    Spec.decode sp.encodeBytes = some sp := by
  obtain ⟨_ | d⟩ := sp
  · rfl
  · cases d with
    | resize r =>
      obtain ⟨hw, hh⟩ := hwf r rfl
      unfold Spec.decode
      simp only [Spec.encodeBytes]
      have hp := parseFields_lenField one_ne_zero r.encodeBytes []
      rw [List.append_nil] at hp
      rw [hp, parseFields_nil]
      simp only [Option.map_some', applyFields, Spec.applyField,
        resizeDecode_encodeBytes r hw hh]
    | filter f =>
      unfold Spec.decode
      simp only [Spec.encodeBytes]
      have hp := parseFields_lenField two_ne_zero f.encodeBytes []
      rw [List.append_nil] at hp
      rw [hp, parseFields_nil]
      simp only [Option.map_some', applyFields, Spec.applyField,
        filterDecode_encodeBytes f]

theorem parseFields_encodeToVec (specs : List Spec) :
    parseFields (specs.map fun sp => encodeLenField 1 sp.encodeBytes).flatten =
      some (specs.map fun sp => (1, FieldValue.lenDelim sp.encodeBytes)) := by
  induction specs with
  | nil => simp [parseFields_nil]
  | cons sp sps ih =>
    simp only [List.map_cons, List.flatten_cons]
    rw [parseFields_lenField one_ne_zero, ih]
    rfl

theorem applyFields_imageSpec (acc : List Spec) (specs : List Spec)
    (hwf : ∀ sp ∈ specs, ∀ r, sp.data = some (.resize r) →
      r.width < 2 ^ 32 ∧ r.height < 2 ^ 32) :
    applyFields ImageSpec.applyField ⟨acc⟩
        (specs.map fun sp => (1, FieldValue.lenDelim sp.encodeBytes)) =
      some ⟨acc ++ specs⟩ := by
  induction specs generalizing acc with
  | nil => simp [applyFields]
  | cons sp sps ih =>
    simp only [List.map_cons, applyFields, ImageSpec.applyField]
    rw [specDecode_encodeBytes sp (hwf sp (by simp))]
    simp only [Option.map_some']
    rw [ih (acc ++ [sp]) (fun s hs => hwf s (by simp [hs]))]
    simp

/-- Well-formedness of a `Resize` value: its `uint32` fields fit in 32 bits,
the invariant the Rust `u32` type enforces by construction. -/
def Resize.wf (r : Resize) : Bool :=
  decide (r.width < 2 ^ 32) && decide (r.height < 2 ^ 32)

/-- Well-formedness of a `Spec`: its resize payload, when present, carries
`u32`-representable dimensions. -/
def Spec.wf : Spec → Bool
  | ⟨some (.resize r)⟩ => r.wf
  | _ => true

/-- Well-formedness of an `ImageSpec`: every element is well formed.  Every
value constructible in the Rust program satisfies this, as all numeric
fields there are `u32`. -/
def ImageSpec.wf (is : ImageSpec) : Bool :=
  is.specs.all Spec.wf

theorem Spec.wf_bounds {sp : Spec} (h : sp.wf = true) :
    ∀ r, sp.data = some (.resize r) → r.width < 2 ^ 32 ∧ r.height < 2 ^ 32 := by
  intro r hr
  obtain ⟨d⟩ := sp
  simp only at hr
  subst hr
  simp only [Spec.wf, Resize.wf, Bool.and_eq_true, decide_eq_true_eq] at h
  exact h

/-- Protobuf-level round trip: decoding the wire bytes of a well-formed
`ImageSpec` recovers it exactly. -/
theorem ImageSpec.decode_encodeToVec (is : ImageSpec) (hwf : is.wf = true) :
    ImageSpec.decode is.encodeToVec = some is := by
  obtain ⟨specs⟩ := is
  unfold ImageSpec.decode ImageSpec.encodeToVec
  simp only
  rw [parseFields_encodeToVec]
  have hb : ∀ sp ∈ specs, ∀ r, sp.data = some (.resize r) →
      r.width < 2 ^ 32 ∧ r.height < 2 ^ 32 := by
    intro sp hsp
    simp only [ImageSpec.wf, List.all_eq_true] at hwf
    exact Spec.wf_bounds (hwf sp hsp)
  show applyFields ImageSpec.applyField ⟨[]⟩
      (specs.map fun sp => (1, FieldValue.lenDelim sp.encodeBytes)) = some ⟨specs⟩
  rw [applyFields_imageSpec [] specs hb, List.nil_append]

/-! ### URL-safe base64 without padding (`base64` crate, `URL_SAFE_NO_PAD`) -/

/-- URL-safe base64 alphabet: standard alphabet with `-` and `_` in place
of `+` and `/`. -/
def b64Alphabet : List Char :=
  "ABCDEFGHIJKLMNOPQRSTUVWXYZabcdefghijklmnopqrstuvwxyz0123456789-_".toList

/-- Alphabet character of a 6-bit group. -/
def b64Char (i : Nat) : Char :=
  b64Alphabet.getD i 'A'

/-- Six-bit value of an alphabet character, `none` outside the alphabet. -/
def b64CharVal (c : Char) : Option Nat :=
  b64Alphabet.indexOf? c

/-- URL-safe no-pad base64 encoding of a byte list, three bytes to four
characters, with one or two trailing bytes emitting two or three characters
and no `=` padding. -/
def b64EncodeChars : List Nat → List Char
  | [] => []
  | [b1] => [b64Char (b1 / 4), b64Char (b1 % 4 * 16)]
  | [b1, b2] => [b64Char (b1 / 4), b64Char (b1 % 4 * 16 + b2 / 16), b64Char (b2 % 16 * 4)]
  | b1 :: b2 :: b3 :: rest =>
    b64Char (b1 / 4) :: b64Char (b1 % 4 * 16 + b2 / 16) ::
      b64Char (b2 % 16 * 4 + b3 / 64) :: b64Char (b3 % 64) :: b64EncodeChars rest

/-- Reassembly of bytes from 6-bit groups: four groups to three bytes; a
single trailing group is malformed, and two or three trailing groups must
have zero trailing bits (the crate's default strict decode). -/
def b64DecodeVals : List Nat → Option (List Nat)
  | [] => some []
  | [_] => none
  | [v1, v2] => if v2 % 16 = 0 then some [v1 * 4 + v2 / 16] else none
  | [v1, v2, v3] =>
    if v3 % 4 = 0 then some [v1 * 4 + v2 / 16, v2 % 16 * 16 + v3 / 4] else none
  | v1 :: v2 :: v3 :: v4 :: rest =>
    (b64DecodeVals rest).map
      (fun bs => (v1 * 4 + v2 / 16) :: ((v2 % 16 * 16 + v3 / 4) :: ((v3 % 4 * 64 + v4) :: bs)))

/-- Six-bit values of a character list, `none` as soon as one character is
outside the alphabet. -/
def b64CharVals : List Char → Option (List Nat)
  | [] => some []
  | c :: cs =>
    match b64CharVal c with
    | none => none
    | some v =>
      match b64CharVals cs with
      | none => none
      | some vs => some (v :: vs)

/-- URL-safe no-pad base64 decoding of a character list. -/
def b64Decode (cs : List Char) : Option (List Nat) :=
  match b64CharVals cs with
  | none => none
  | some vs => b64DecodeVals vs

theorem b64CharVal_b64Char : ∀ i, i < 64 → b64CharVal (b64Char i) = some i := by
  decide

theorem b64Char_mem (i : Nat) : b64Char i ∈ b64Alphabet := by
  unfold b64Char
  by_cases h : i < b64Alphabet.length
  · rw [List.getD_eq_getElem _ _ h]
    exact List.getElem_mem h
  · rw [List.getD_eq_default _ _ (by omega)]
    decide

theorem b64EncodeChars_mem : ∀ bs c, c ∈ b64EncodeChars bs → c ∈ b64Alphabet := by
  intro bs
  induction bs using b64EncodeChars.induct with
  | case1 => simp [b64EncodeChars]
  | case2 b1 =>
    intro c hc
    simp only [b64EncodeChars, List.mem_cons, List.not_mem_nil, or_false] at hc
    rcases hc with rfl | rfl <;> exact b64Char_mem _
  | case3 b1 b2 =>
    intro c hc
    simp only [b64EncodeChars, List.mem_cons, List.not_mem_nil, or_false] at hc
    rcases hc with rfl | rfl | rfl <;> exact b64Char_mem _
  | case4 b1 b2 b3 rest ih =>
    intro c hc
    simp only [b64EncodeChars, List.mem_cons] at hc
    rcases hc with rfl | rfl | rfl | rfl | hc
    · exact b64Char_mem _
    · exact b64Char_mem _
    · exact b64Char_mem _
    · exact b64Char_mem _
    · exact ih c hc

/-- Six-bit groups of a byte list (proof helper describing what
`b64EncodeChars` spells out in alphabet characters). -/
def b64Groups : List Nat → List Nat
  | [] => []
  | [b1] => [b1 / 4, b1 % 4 * 16]
  | [b1, b2] => [b1 / 4, b1 % 4 * 16 + b2 / 16, b2 % 16 * 4]
  | b1 :: b2 :: b3 :: rest =>
    b1 / 4 :: (b1 % 4 * 16 + b2 / 16) :: ((b2 % 16 * 4 + b3 / 64) :: (b3 % 64 :: b64Groups rest))

theorem b64CharVals_b64EncodeChars : ∀ bs, (∀ b ∈ bs, b < 256) →
    b64CharVals (b64EncodeChars bs) = some (b64Groups bs) := by
  intro bs
  induction bs using b64EncodeChars.induct with
  | case1 => intro _; rfl
  | case2 b1 =>
    intro hb
    have h1 : b1 < 256 := hb b1 (by simp)
    simp [b64EncodeChars, b64Groups, b64CharVals,
      b64CharVal_b64Char (b1 / 4) (by omega),
      b64CharVal_b64Char (b1 % 4 * 16) (by omega)]
  | case3 b1 b2 =>
    intro hb
    have h1 : b1 < 256 := hb b1 (by simp)
    have h2 : b2 < 256 := hb b2 (by simp)
    simp [b64EncodeChars, b64Groups, b64CharVals,
      b64CharVal_b64Char (b1 / 4) (by omega),
      b64CharVal_b64Char (b1 % 4 * 16 + b2 / 16) (by omega),
      b64CharVal_b64Char (b2 % 16 * 4) (by omega)]
  | case4 b1 b2 b3 rest ih =>
    intro hb
    have h1 : b1 < 256 := hb b1 (by simp)
    have h2 : b2 < 256 := hb b2 (by simp)
    have h3 : b3 < 256 := hb b3 (by simp)
    have ihh := ih fun b hbm => hb b (by simp [hbm])
    simp [b64EncodeChars, b64Groups, b64CharVals, ihh,
      b64CharVal_b64Char (b1 / 4) (by omega),
      b64CharVal_b64Char (b1 % 4 * 16 + b2 / 16) (by omega),
      b64CharVal_b64Char (b2 % 16 * 4 + b3 / 64) (by omega),
      b64CharVal_b64Char (b3 % 64) (by omega)]

theorem b64DecodeVals_b64Groups : ∀ bs, (∀ b ∈ bs, b < 256) →
    b64DecodeVals (b64Groups bs) = some bs := by
  intro bs
  induction bs using b64Groups.induct with
  | case1 => intro _; rfl
  | case2 b1 =>
    intro hb
    have h1 : b1 < 256 := hb b1 (by simp)
    have e1 : b1 % 4 * 16 % 16 = 0 := by omega
    have e2 : b1 / 4 * 4 + b1 % 4 * 16 / 16 = b1 := by omega
    simp [b64Groups, b64DecodeVals, e1, e2]
    omega
  | case3 b1 b2 =>
    intro hb
    have h1 : b1 < 256 := hb b1 (by simp)
    have h2 : b2 < 256 := hb b2 (by simp)
    have e1 : b2 % 16 * 4 % 4 = 0 := by omega
    have e2 : b1 / 4 * 4 + (b1 % 4 * 16 + b2 / 16) / 16 = b1 := by omega
    have e3 : (b1 % 4 * 16 + b2 / 16) % 16 * 16 + b2 % 16 * 4 / 4 = b2 := by omega
    simp [b64Groups, b64DecodeVals, e1, e2, e3]
    omega
  | case4 b1 b2 b3 rest ih =>
    intro hb
    have h1 : b1 < 256 := hb b1 (by simp)
    have h2 : b2 < 256 := hb b2 (by simp)
    have h3 : b3 < 256 := hb b3 (by simp)
    have ihh := ih fun b hbm => hb b (by simp [hbm])
    have e2 : b1 / 4 * 4 + (b1 % 4 * 16 + b2 / 16) / 16 = b1 := by omega
    have e3 : (b1 % 4 * 16 + b2 / 16) % 16 * 16 + (b2 % 16 * 4 + b3 / 64) / 4 = b2 := by
      omega
    have e4 : (b2 % 16 * 4 + b3 / 64) % 4 * 64 + b3 % 64 = b3 := by omega
    simp [b64Groups, b64DecodeVals, ihh, e2, e3, e4]

/-- Base64 round trip on byte lists. -/
theorem b64Decode_b64EncodeChars (bs : List Nat) (hb : ∀ b ∈ bs, b < 256) :
    b64Decode (b64EncodeChars bs) = some bs := by
  unfold b64Decode
  rw [b64CharVals_b64EncodeChars bs hb]
  exact b64DecodeVals_b64Groups bs hb

/-! ### All encoder output is genuine bytes -/

theorem encodeVarintField_lt (f v : Nat) : ∀ b ∈ encodeVarintField f v, b < 256 := by
  intro b hb
  unfold encodeVarintField at hb
  split at hb
  · simp at hb
  · rcases List.mem_append.1 hb with h | h
    · exact varintEncode_bytes_lt _ b h
    · exact varintEncode_bytes_lt _ b h

theorem encodeLenField_lt (f : Nat) (payload : List Nat)
    (hp : ∀ b ∈ payload, b < 256) : ∀ b ∈ encodeLenField f payload, b < 256 := by
  intro b hb
  unfold encodeLenField at hb
  rcases List.mem_append.1 hb with h | h
  · rcases List.mem_append.1 h with h2 | h2
    · exact varintEncode_bytes_lt _ b h2
    · exact varintEncode_bytes_lt _ b h2
  · exact hp b h

theorem resizeEncodeBytes_lt (r : Resize) : ∀ b ∈ r.encodeBytes, b < 256 := by
  intro b hb
  unfold Resize.encodeBytes at hb
  rcases List.mem_append.1 hb with h | h
  · rcases List.mem_append.1 h with h2 | h2
    · rcases List.mem_append.1 h2 with h3 | h3
      · exact encodeVarintField_lt _ _ b h3
      · exact encodeVarintField_lt _ _ b h3
    · exact encodeVarintField_lt _ _ b h2
  · exact encodeVarintField_lt _ _ b h

theorem filterEncodeBytes_lt (f : Filter) : ∀ b ∈ f.encodeBytes, b < 256 :=
  fun b hb => encodeVarintField_lt _ _ b hb

theorem specEncodeBytes_lt (sp : Spec) : ∀ b ∈ sp.encodeBytes, b < 256 := by
  obtain ⟨_ | (r | f)⟩ := sp
  · simp [Spec.encodeBytes]
  · exact encodeLenField_lt _ _ (resizeEncodeBytes_lt r)
  · exact encodeLenField_lt _ _ (filterEncodeBytes_lt f)

theorem ImageSpec.encodeToVec_lt (is : ImageSpec) : ∀ b ∈ is.encodeToVec, b < 256 := by
  intro b hb
  unfold ImageSpec.encodeToVec at hb
  rw [List.mem_flatten] at hb
  obtain ⟨l, hl, hbl⟩ := hb
  rw [List.mem_map] at hl
  obtain ⟨sp, _, rfl⟩ := hl
  exact encodeLenField_lt _ _ (specEncodeBytes_lt sp) b hbl

/-! ### The token codec of `src/pb/mod.rs` -/

/-- The `From<&ImageSpec> for String` conversion of `src/pb/mod.rs` lines
14-19: prost `encode_to_vec`, then `URL_SAFE_NO_PAD` base64. -/
def ImageSpec.toToken (is : ImageSpec) : String :=
  ⟨b64EncodeChars is.encodeToVec⟩

/-- Decode-failure taxonomy of the spec (§7): the `TryFrom<&str>` impl
surfaces either the base64 crate's decode error or the prost decode error,
two distinguishable failure modes. -/
inductive CodecError
  | invalidBase64
  | malformedWireBytes
deriving DecidableEq, Repr

/-- The `TryFrom<&str> for ImageSpec` conversion of `src/pb/mod.rs` lines
22-29: `URL_SAFE_NO_PAD` base64 decode (failure = `InvalidBase64`), then
prost `ImageSpec::decode` (failure = `MalformedWireBytes`). -/
def ImageSpec.tryFrom (s : String) : Except CodecError ImageSpec :=
  match b64Decode s.toList with
  | none => .error .invalidBase64
  | some bytes =>
    match ImageSpec.decode bytes with
    | none => .error .malformedWireBytes
    | some is => .ok is

/-- Token-level round trip for well-formed pipelines. -/
theorem tryFrom_toToken (is : ImageSpec) (hwf : is.wf = true) :
    ImageSpec.tryFrom is.toToken = Except.ok is := by
  unfold ImageSpec.tryFrom ImageSpec.toToken
  have hl : (String.mk (b64EncodeChars is.encodeToVec)).toList =
      b64EncodeChars is.encodeToVec := rfl
  rw [hl, b64Decode_b64EncodeChars _ (ImageSpec.encodeToVec_lt is)]
  show (match ImageSpec.decode is.encodeToVec with
    | none => Except.error CodecError.malformedWireBytes
    | some is2 => Except.ok is2) = Except.ok is
  rw [ImageSpec.decode_encodeToVec is hwf]

instance {ε α : Type} [DecidableEq ε] [DecidableEq α] : DecidableEq (Except ε α) := fun a b =>
  match a, b with
  | .error e1, .error e2 =>
    if h : e1 = e2 then .isTrue (by rw [h]) else .isFalse (by simp [h])
  | .ok a1, .ok a2 =>
    if h : a1 = a2 then .isTrue (by rw [h]) else .isFalse (by simp [h])
  | .error _, .ok _ => .isFalse (by simp)
  | .ok _, .error _ => .isFalse (by simp)

/-! ### The claims -/

/-- C1: for every constructible `ImageSpec` value `s` (well-formed: all
dimension fields are `u32`-representable, which the Rust types guarantee by
construction), decoding the token produced by encoding `s`
(`String::from(&s)` then `ImageSpec::try_from` of that string) succeeds and
returns an `ImageSpec` equal to `s`, byte-for-byte. -/
theorem claim1_encode_decode_roundtrip (s : ImageSpec) (hwf : s.wf = true) :
    ImageSpec.tryFrom s.toToken = Except.ok s :=
  tryFrom_toToken s hwf

/-- Witness for C1 at the pipeline of the repository's own unit test:
`[Resize(600,600,Normal,CatmullRom), Filter(Marine)]`. -/
theorem claim1_encode_decode_roundtrip_witness :
    (ImageSpec.new [Spec.new_resize 600 600 .catmullRom,
        Spec.new_filter .marine]).wf = true ∧
    ImageSpec.tryFrom (ImageSpec.new [Spec.new_resize 600 600 .catmullRom,
        Spec.new_filter .marine]).toToken =
      Except.ok (ImageSpec.new [Spec.new_resize 600 600 .catmullRom,
        Spec.new_filter .marine]) :=
  ⟨by decide, claim1_encode_decode_roundtrip _ (by decide)⟩

/-- C2: the token `CgIaAA` carries the bytes `[0x0a, 0x02, 0x1a, 0x00]` — an
`ImageSpec` holding one `Spec` record whose single field has number 3, an
operation-kind tag unknown to the decoder (the known `oneof` members are 1
and 2).  Decoding succeeds and returns that entry as an ignorable `Spec`
with no payload rather than failing. -/
theorem claim2_unknown_kind_ignorable :
    b64Decode "CgIaAA".toList = some [10, 2, 26, 0] ∧
    ImageSpec.tryFrom "CgIaAA" = Except.ok (ImageSpec.new [⟨none⟩]) := by
  decide

/-- C3: `ImageSpec::try_from` fails with `InvalidBase64` exactly when the
token is not valid URL-safe base64, and with the distinct variant
`MalformedWireBytes` exactly when the base64-decoded bytes do not parse
into a well-formed `ImageSpec`. -/
theorem claim3_error_modes (s : String) :
    (ImageSpec.tryFrom s = Except.error CodecError.invalidBase64 ↔
      b64Decode s.toList = none) ∧
    (ImageSpec.tryFrom s = Except.error CodecError.malformedWireBytes ↔
      ∃ bytes, b64Decode s.toList = some bytes ∧ ImageSpec.decode bytes = none) := by
  unfold ImageSpec.tryFrom
  rcases hb : b64Decode s.toList with _ | bytes
  · simp
  · rcases hd : ImageSpec.decode bytes with _ | is <;> simp [hd]

/-- Witness for C3 (the binders of `∀` plus the embedded iffs): at the
malformed token `not a valid token!!` the decoder reports `InvalidBase64`. -/
theorem claim3_error_modes_witness :
    ImageSpec.tryFrom "not a valid token!!" = Except.error CodecError.invalidBase64 :=
  (claim3_error_modes "not a valid token!!").1.mpr (by decide)

/-- C4: every character of an encoded token belongs to the URL-safe base64
alphabet and is none of `+`, `/`, `=`. -/
theorem claim4_token_charset (s : ImageSpec) :
    ∀ c ∈ s.toToken.toList, c ∈ b64Alphabet ∧ c ≠ '+' ∧ c ≠ '/' ∧ c ≠ '=' := by
  intro c hc
  have hm : c ∈ b64Alphabet := b64EncodeChars_mem _ c hc
  refine ⟨hm, ?_, ?_, ?_⟩ <;> (rintro rfl; revert hm; decide)

/-- Witness for C4 at the token of `[Filter(Marine)]`, whose first character
is `C`. -/
theorem claim4_token_charset_witness :
    'C' ∈ (ImageSpec.new [Spec.new_filter .marine]).toToken.toList ∧
    ('C' ∈ b64Alphabet ∧ 'C' ≠ '+' ∧ 'C' ≠ '/' ∧ 'C' ≠ '=') :=
  ⟨by decide,
    claim4_token_charset (ImageSpec.new [Spec.new_filter .marine]) 'C' (by decide)⟩

/-- C5: for every width and height, `Spec::new_resize_seam_carve` returns a
`Spec` whose payload is `Resize` with those dimensions, resize type
`SeamCarve` and sampling filter fixed to the `Undefined` sentinel (the
builder accepts no filter, so no caller intent can change it). -/
theorem claim5_seam_carve_builder (width height : Nat) :
    (Spec.new_resize_seam_carve width height).data =
      some (spec.Data.resize
        ⟨width, height, resize.ResizeType.seamCarve, resize.SampleFilter.undefined⟩) :=
  rfl

/-- C6: the wire-to-photon sampling filter mapping sends `Undefined` to
`Nearest` (the primitive's default) and each named member to the
identically named primitive filter, one-to-one on the named members (their
images are pairwise distinct). -/
theorem claim6_sampling_filter_mapping :
    resize.SampleFilter.undefined.toSamplingFilter = SamplingFilter.nearest ∧
    resize.SampleFilter.nearest.toSamplingFilter = SamplingFilter.nearest ∧
    resize.SampleFilter.triangle.toSamplingFilter = SamplingFilter.triangle ∧
    resize.SampleFilter.catmullRom.toSamplingFilter = SamplingFilter.catmullRom ∧
    resize.SampleFilter.gaussian.toSamplingFilter = SamplingFilter.gaussian ∧
    resize.SampleFilter.lanczos3.toSamplingFilter = SamplingFilter.lanczos3 ∧
    [resize.SampleFilter.nearest.toSamplingFilter,
      resize.SampleFilter.triangle.toSamplingFilter,
      resize.SampleFilter.catmullRom.toSamplingFilter,
      resize.SampleFilter.gaussian.toSamplingFilter,
      resize.SampleFilter.lanczos3.toSamplingFilter].Nodup := by
  decide

/-- C7: encoding `[Resize(600,600,Normal,CatmullRom), Filter(Marine)]`
produces different wire bytes — and hence a different token — than encoding
`[Filter(Marine), Resize(600,600,Normal,CatmullRom)]`. -/
theorem claim7_order_sensitive :
    (ImageSpec.new [Spec.new_resize 600 600 .catmullRom,
        Spec.new_filter .marine]).encodeToVec ≠
      (ImageSpec.new [Spec.new_filter .marine,
        Spec.new_resize 600 600 .catmullRom]).encodeToVec ∧
    (ImageSpec.new [Spec.new_resize 600 600 .catmullRom,
        Spec.new_filter .marine]).toToken ≠
      (ImageSpec.new [Spec.new_filter .marine,
        Spec.new_resize 600 600 .catmullRom]).toToken := by
  decide

/-- C9: each public builder returns a `Spec` whose optional payload is
present, although the wire type also admits a `Spec` with an absent
payload. -/
theorem claim9_builders_always_some :
    (∀ width height fl, (Spec.new_resize width height fl).data.isSome = true) ∧
    (∀ width height, (Spec.new_resize_seam_carve width height).data.isSome = true) ∧
    (∀ fl, (Spec.new_filter fl).data.isSome = true) ∧
    (Spec.mk none).data.isSome = false :=
  ⟨fun _ _ _ => rfl, fun _ _ => rfl, fun _ => rfl, rfl⟩

/-- C10: the empty pipeline encodes to the empty token, and decoding the
empty token succeeds with the empty `ImageSpec`. -/
theorem claim10_empty_pipeline :
    (ImageSpec.new []).toToken = "" ∧
    ImageSpec.tryFrom "" = Except.ok (ImageSpec.new []) := by
  decide

end Thumbor
